import Mathlib

/-!
Verification of the blog document-indexing and serving engine
(`blog/blog.go`): a shallow embedding of its data model, relationship
builder, feed renderers and router branches, with theorems settling the
specified properties.

Modelling conventions:
* `time.Time` is modelled as `Int` with `After = (· > ·)`; only the linear
  order on publish instants matters to the code under verification.
* A `*Doc` pointer is modelled as a pair `(id, payload)` where `id` is the
  document's discovery index: `loadDocs` appends one freshly allocated
  `&Doc{...}` per walked file, so distinct corpus slots are distinct
  pointers, and pointer comparison (`d != doc`, map keys) is comparison of
  discovery indices.
* Go's `sort.Sort` is documented to sort without any stability guarantee;
  it is modelled by its contract `goSortSpec`: the output is a permutation
  of the input that is sorted for the given `Less` (the adjacent-pair
  condition checked by `sort.IsSorted`).  Likewise the iteration order of
  a Go map (`for d := range related`) is an arbitrary permutation of its
  key set.
-/

namespace Blog

/-- Publish time (`time.Time`), abstracted to its linear order; `After` is `>`. -/
abbrev Time := Int

/-- One element of a `present` section; only `Text` elements (with their
`Pre` flag and lines) are distinguished, everything else is opaque. -/
inductive SectionElem where
  | text (pre : Bool) (lines : List String) : SectionElem
  | other : SectionElem
deriving DecidableEq, Repr

/-- A `present.Section`: its element list (only the parts `summary` reads). -/
structure Section where
  elem : List SectionElem
deriving DecidableEq, Repr

/-- A parsed document (`blog.Doc` together with the `present.Doc` fields the
engine reads).  `authors` holds the author display names, i.e. the result of
`authorName` on each `present.Author` (that extraction belongs to the external
parser collaborator). -/
structure Doc where
  title : String
  time : Time
  tags : List String
  authors : List String
  sections : List Section
  path : String
  permalink : String
  html : String
deriving DecidableEq, Repr

instance : Inhabited Doc :=
  ⟨{ title := "", time := 0, tags := [], authors := [], sections := [],
     path := "", permalink := "", html := "" }⟩

/-- A corpus slot: pointer identity (discovery index) paired with the document. -/
abbrev Entry := Nat × Doc

/-- Server configuration (`blog.Config`). -/
structure Config where
  contentPath : String
  templatePath : String
  baseURL : String
  basePath : String
  hostname : String
  homeArticles : Int
  feedArticles : Int
  feedTitle : String
deriving DecidableEq, Repr

/-- Comparator `docsByTime.Less(i, j) = s[i].Time.After(s[j].Time)`: strictly
later publish time comes first. -/
def docsByTimeLess (a b : Doc) : Bool := decide (b.time < a.time)

/-- The comparator lifted to corpus slots (it reads only the document,
never the pointer). -/
def entryLess (a b : Entry) : Bool := docsByTimeLess a.2 b.2

/-- The input to `sort.Sort(docsByTime(s.docs))`: the parsed documents in
discovery (file-walk) order, each paired with its discovery index, which
models its pointer identity. -/
def discovery (docs0 : List Doc) : List Entry := docs0.enum

/-- Go's `sort.IsSorted` check for a comparator `lt`: no adjacent pair is
out of order (`!Less(i, i-1)` for every `i`). -/
def goSortedBy (lt : α → α → Bool) : List α → Bool
  | [] => true
  | [_] => true
  | a :: b :: rest => !lt b a && goSortedBy lt (b :: rest)

/-- The documented contract of Go's `sort.Sort`: the output is a permutation
of the input and is sorted for `lt`.  `sort.Sort` guarantees nothing beyond
this — in particular it is not guaranteed to be stable. -/
def goSortSpec (lt : α → α → Bool) (input output : List α) : Prop :=
  input.Perm output ∧ goSortedBy lt output = true

/-- Stability on equal publish times: whenever `a` precedes `b` in the list
and their publish times are equal, `a`'s discovery index is smaller. -/
def stableTiesB : List Entry → Bool
  | [] => true
  | a :: rest =>
      rest.all (fun b => !(a.2.time == b.2.time) || decide (a.1 < b.1)) && stableTiesB rest

/-! ### The `authors` display-name join -/

/-- The loop body of `authors`: at index `i` (with `last = len-1`) the
separator written before the `i`-th name is `" and "` when `i = last`,
`", "` for other `i > 0`, and nothing for `i = 0`. -/
def authorsAux (last : Nat) : Nat → List String → String
  | _, [] => ""
  | i, a :: rest =>
      (if 0 < i then (if i = last then " and " else ", ") else "") ++
        (a ++ authorsAux last (i + 1) rest)

/-- Function `authors`: joins author display names, `", "`-separated except
for a final `" and "` (mirrors the `for i, a := range authors` loop writing
into a `bytes.Buffer`). -/
def authors (names : List String) : String :=
  authorsAux (names.length - 1) 0 names

/-- The join described by the specification's words: `", "` between all but
the last two names, `" and "` before the last. -/
def authorsSpecJoin : List String → String
  | [] => ""
  | [a] => a
  | [a, b] => a ++ " and " ++ b
  | a :: b :: c :: rest => a ++ ", " ++ authorsSpecJoin (b :: c :: rest)

/-- The tail of the join, i.e. everything written after the first name. -/
def authorsTail : List String → String
  | [] => ""
  | [a] => " and " ++ a
  | a :: b :: rest => ", " ++ (a ++ authorsTail (b :: rest))

/-! ### Relationship builder (the body of `loadDocs` after the file walk) -/

/-- Tag buckets `s.docTags`: the loop
`for _, d := range s.docs { for _, t := range d.Tags { s.docTags[t] = append(s.docTags[t], d) } }`
appends, in corpus order, one occurrence of each document per occurrence of
`t` in that document's tag list. -/
def docTags (corpus : List Entry) (t : String) : List Entry :=
  corpus.flatMap (fun e => (e.2.tags.filter (fun u => u == t)).map (fun _ => e))

/-- The key set of the `related` map built for `doc`, enumerated in corpus
order: a corpus slot is a key iff it is a different pointer from `doc` and
occurs in the tag bucket of one of `doc`'s tags.  A Go map iterates its keys
in an unspecified order, so consumers receive an arbitrary permutation of
this list. -/
def relatedKeyCandidates (corpus : List Entry) (doc : Entry) : List Entry :=
  corpus.filter (fun e =>
    e.1 != doc.1 && doc.2.tags.any (fun t => (docTags corpus t).any (fun d => d.1 == e.1)))

/-- The scan `for i := range s.docs { if s.docs[i] != doc { continue } ... break }`:
the first position holding the pointer `doc`. -/
def findPosAux (doc : Entry) : List Entry → Nat → Option Nat
  | [], _ => none
  | e :: rest, i => if e.1 == doc.1 then some i else findPosAux doc rest (i + 1)

/-- Fields `Newer` and `Older` of `doc`: the entries adjacent to `doc`'s own
position in the corpus (`s.docs[i-1]` when `i > 0`, `s.docs[i+1]` when
`i+1 < len`); both stay absent if the scan finds no position, which cannot
happen for a corpus member. -/
def newerOlder (corpus : List Entry) (doc : Entry) : Option Entry × Option Entry :=
  match findPosAux doc corpus 0 with
  | none => (none, none)
  | some i =>
      (if 0 < i then corpus[i - 1]? else none,
       if i + 1 < corpus.length then corpus[i + 1]? else none)

/-! ### Feed renderers -/

/-- The prefix emitted by `for i, doc := range s.docs { if i >= s.cfg.FeedArticles { break } ... }`:
`i` runs from 0, so the loop emits the first `FeedArticles` documents and
nothing at all when `FeedArticles ≤ 0` (the guard fires already at `i = 0`);
`Int.toNat` clamps exactly that way. -/
def feedPrefix (corpus : List Entry) (n : Int) : List Entry :=
  corpus.take n.toNat

/-- Concatenation of styled lines:
`buf.WriteString(string(present.Style(s))); buf.WriteByte('\n')` per line. -/
def styledLines (style : String → String) (lines : List String) : String :=
  lines.foldl (fun b s => b ++ style s ++ "\n") ""

/-- First element of a section that is a `present.Text` with `Pre` unset
(the loop `continue`s past anything else). -/
def firstSummaryText : List SectionElem → Option (List String)
  | [] => none
  | SectionElem.text pre lines :: rest =>
      if pre then firstSummaryText rest else some lines
  | SectionElem.other :: rest => firstSummaryText rest

/-- Function `summary`: the first non-preformatted paragraph of the first
section, each line passed through `present.Style` — the external styling
collaborator, supplied here as the parameter `style`. -/
def summary (style : String → String) (d : Doc) : String :=
  match d.sections with
  | [] => ""
  | sec :: _ =>
      match firstSummaryText sec.elem with
      | none => ""
      | some lines => styledLines style lines

/-- The feed identifier `"tag:" + Hostname + ",2013:" + Hostname`. -/
def feedID (cfg : Config) : String :=
  "tag:" ++ cfg.hostname ++ ",2013:" ++ cfg.hostname

/-- One `atom.Entry`, as filled in by `renderAtomFeed`. -/
structure AtomEntry where
  title : String
  id : String
  linkHref : String
  published : Time
  updated : Time
  summaryBody : String
  contentBody : String
  authorLine : String
deriving DecidableEq, Repr

/-- Per-document projection of `renderAtomFeed`: published and updated both
carry the publish time (the source has no separate edit timestamp). -/
def atomEntryOf (cfg : Config) (style : String → String) (e : Entry) : AtomEntry :=
  { title := e.2.title
    id := feedID cfg ++ e.2.path
    linkHref := e.2.permalink
    published := e.2.time
    updated := e.2.time
    summaryBody := summary style e.2
    contentBody := e.2.html
    authorLine := authors e.2.authors }

/-- The `atom.Feed` value built by `renderAtomFeed` before `xml.Marshal`. -/
structure AtomFeed where
  title : String
  id : String
  updated : Time
  selfLink : String
  entries : List AtomEntry
deriving DecidableEq, Repr

/-- Function `renderAtomFeed` up to serialization: feed metadata plus the
capped entry list; `updated` is the newest document's time, or the zero time
for an empty corpus (`var updated time.Time`). -/
def renderAtomFeedModel (cfg : Config) (style : String → String)
    (corpus : List Entry) : AtomFeed :=
  { title := cfg.feedTitle
    id := feedID cfg
    updated := match corpus with | [] => 0 | e :: _ => e.2.time
    selfLink := cfg.baseURL ++ "/feed.atom"
    entries := (feedPrefix corpus cfg.feedArticles).map (atomEntryOf cfg style) }

/-- One `jsonItem` record. -/
structure JsonItem where
  title : String
  link : String
  time : Time
  summaryBody : String
  contentBody : String
  authorLine : String
deriving DecidableEq, Repr

/-- Per-document projection of `renderJSONFeed`. -/
def jsonItemOf (style : String → String) (e : Entry) : JsonItem :=
  { title := e.2.title
    link := e.2.permalink
    time := e.2.time
    summaryBody := summary style e.2
    contentBody := e.2.html
    authorLine := authors e.2.authors }

/-- The item list accumulated by `renderJSONFeed`'s loop into
`var feed []jsonItem`. -/
def jsonItems (style : String → String) (corpus : List Entry) (n : Int) :
    List JsonItem :=
  (feedPrefix corpus n).map (jsonItemOf style)

/-- Abstract JSON values: the image of `encoding/json` marshalling. -/
inductive JValue where
  | null : JValue
  | str : String → JValue
  | arr : List JValue → JValue
  | obj : List (String × JValue) → JValue
deriving Repr

/-- A `time.Time` marshals as a quoted RFC3339 string; the exact text for an
abstract instant is immaterial to every claim and is rendered here as the
decimal value. -/
def timeJson (t : Time) : JValue := JValue.str (toString t)

/-- Marshalling of one `jsonItem`: a JSON object whose keys are the struct's
field names with their exact Go casing (the struct declares no json tags). -/
def jsonItemValue (it : JsonItem) : JValue :=
  JValue.obj
    [("Title", JValue.str it.title),
     ("Link", JValue.str it.link),
     ("Time", timeJson it.time),
     ("Summary", JValue.str it.summaryBody),
     ("Content", JValue.str it.contentBody),
     ("Author", JValue.str it.authorLine)]

/-- Marshalling of the accumulated `var feed []jsonItem`: the slice is still
`nil` when the loop appended nothing, and `json.Marshal` of a nil slice
yields the JSON literal `null`, not `[]`. -/
def renderJSONFeedValue (style : String → String) (corpus : List Entry)
    (n : Int) : JValue :=
  match jsonItems style corpus n with
  | [] => JValue.null
  | it :: rest => JValue.arr ((it :: rest).map jsonItemValue)

/-- Whether a JSON value is an array. -/
def isJsonArray : JValue → Bool
  | JValue.arr _ => true
  | _ => false

/-- The elements of a JSON array (empty for non-arrays). -/
def jsonArrayElems : JValue → List JValue
  | JValue.arr l => l
  | _ => []

/-- The key list of a JSON object. -/
def objKeys : JValue → Option (List String)
  | JValue.obj fields => some (fields.map Prod.fst)
  | _ => none

/-! ### Router branches (`ServeHTTP`) -/

/-- The `"/"` branch:
`d.Data = s.docs; if len(s.docs) > s.cfg.HomeArticles { d.Data = s.docs[:s.cfg.HomeArticles] }`.
Both operands of `>` are Go `int`s, and the slice `s.docs[:H]` panics when
`H < 0` — the truncation has no lower-bound guard.  A panic is modelled as
`none`; inside the guard `H < len` holds, so `H ≥ 0` makes the slice legal. -/
def homeDocsData (docs : List Entry) (homeArticles : Int) : Option (List Entry) :=
  if (docs.length : Int) > homeArticles then
    if 0 ≤ homeArticles then some (docs.take homeArticles.toNat) else none
  else
    some docs

/-- Head character class of `validJSONPFunc`, the RE2 pattern
`(?i)^[a-z_][a-z0-9_.]*$`: with `(?i)`, `[a-z]` matches the ASCII letters of
both cases plus the two characters Unicode simple case folding adds to their
orbit, U+212A (Kelvin sign, folds with `k`) and U+017F (long s, folds with
`s`). -/
def jsonpHeadChar (c : Char) : Bool :=
  ('a' ≤ c && c ≤ 'z') || ('A' ≤ c && c ≤ 'Z') || c == '_' ||
    c == 'K' || c == 'ſ'

/-- Tail character class of `validJSONPFunc`: additionally digits and dot. -/
def jsonpTailChar (c : Char) : Bool :=
  jsonpHeadChar c || ('0' ≤ c && c ≤ '9') || c == '.'

/-- Regexp `validJSONPFunc = (?i)^[a-z_][a-z0-9_.]*$` as a predicate. -/
def validJSONPFunc (s : String) : Bool :=
  match s.data with
  | [] => false
  | c :: rest => jsonpHeadChar c && rest.all jsonpTailChar

/-- An HTTP response, reduced to the two observables the JSON branch sets. -/
structure JsonRouteResponse where
  contentType : String
  body : String
deriving DecidableEq, Repr

/-- The `"/.json"` branch of `ServeHTTP`: when `validJSONPFunc` accepts the
`jsonp` form value `p`, respond `fmt.Fprintf(w, "%v(%s)", p, s.jsonFeed)`
with a JavaScript content type; otherwise write the cached bytes with a JSON
content type.  An absent parameter arrives as the empty string. -/
def serveJSONFeedRoute (jsonFeed : String) (jsonpParam : String) :
    JsonRouteResponse :=
  if validJSONPFunc jsonpParam then
    { contentType := "application/javascript; charset=utf-8"
      body := jsonpParam ++ "(" ++ jsonFeed ++ ")" }
  else
    { contentType := "application/json; charset=utf-8", body := jsonFeed }

/-- The identifier syntax stated by the original claim's words: nonempty,
every character a letter, digit, underscore or dot, and the first character
not a digit. -/
def claimValidIdent (s : String) : Bool :=
  match s.data with
  | [] => false
  | c :: rest =>
      !c.isDigit &&
        (c :: rest).all (fun d => d.isAlpha || d.isDigit || d == '_' || d == '.')

/-- The identifier syntax of the amended claim's words: a first character
that is a letter or underscore (up to RE2 case folding), then letters,
digits, underscores or dots. -/
def amendedValidIdent (s : String) : Bool :=
  match s.data with
  | [] => false
  | c :: rest => jsonpHeadChar c && rest.all jsonpTailChar

/-! ### Server construction (`NewServer`) -/

/-- The server state assembled by `NewServer` (parsed templates and the
static-file handler carry no observable state of their own and are
omitted). -/
structure ServerModel where
  docs : List Doc
  atomFeed : String
  jsonFeed : String

/-- Outcomes of the fallible steps `NewServer` runs, in program order: the
five template parses, the file walk — whose per-file callback opens, parses
and renders each `.article` file, so the walk yields one outcome per file,
or an I/O error of its own — and the two feed serializations. -/
structure LoadEnv where
  homeTmpl : Except String Unit
  indexTmpl : Except String Unit
  articleTmpl : Except String Unit
  pageTmpl : Except String Unit
  docTmpl : Except String Unit
  walk : Except String (List (Except String Doc))
  atomMarshal : Except String String
  jsonMarshal : Except String String

/-- A `filepath.Walk` aborts at the first callback error: collect the parsed
documents, or stop at the first failing file. -/
def collectDocs : List (Except String Doc) → Except String (List Doc)
  | [] => Except.ok []
  | r :: rs => do
      let d ← r
      let ds ← collectDocs rs
      Except.ok (d :: ds)

/-- Result of `s.loadDocs(...)`: the walk, then the per-file pipeline.  The
subsequent sorting and relationship wiring are total (modelled by
`goSortSpec`, `newerOlder` and `relatedKeyCandidates`) and cannot fail. -/
def loadDocsResult (env : LoadEnv) : Except String (List Doc) := do
  let rs ← env.walk
  collectDocs rs

/-- Function `NewServer`: every fallible load step in program order, each
early-returning its error (`if err != nil { return nil, err }`); a server
value is produced only after every step succeeded. -/
def newServer (env : LoadEnv) : Except String ServerModel := do
  let _ ← env.homeTmpl
  let _ ← env.indexTmpl
  let _ ← env.articleTmpl
  let _ ← env.pageTmpl
  let _ ← env.docTmpl
  let docs ← loadDocsResult env
  let atomBytes ← env.atomMarshal
  let jsonBytes ← env.jsonMarshal
  Except.ok { docs := docs, atomFeed := atomBytes, jsonFeed := jsonBytes }

/-- Whether a step succeeded. -/
def stepOK : Except String α → Bool
  | Except.ok _ => true
  | Except.error _ => false

/-- All load-phase steps of `NewServer` succeeded. -/
def allLoadStepsOK (env : LoadEnv) : Bool :=
  stepOK env.homeTmpl && stepOK env.indexTmpl && stepOK env.articleTmpl &&
    stepOK env.pageTmpl && stepOK env.docTmpl &&
    (match env.walk with
     | Except.error _ => false
     | Except.ok rs => rs.all (fun r => stepOK r)) &&
    stepOK env.atomMarshal && stepOK env.jsonMarshal

/-! ### Concrete sample data for witnesses and counterexamples -/

/-- A sample document. -/
def sampleDoc (title : String) (t : Time) (tags : List String) : Doc :=
  { title := title
    time := t
    tags := tags
    authors := ["Ann"]
    sections := [{ elem := [SectionElem.text false ["hello"]] }]
    path := "/" ++ title
    permalink := "http://example.org/" ++ title
    html := "<p>hello</p>" }

/-- Sample documents with times 3 > 2 > 1 and tags {A,B}, {B,C}, {A}. -/
def docA : Doc := sampleDoc "a" 3 ["A", "B"]

/-- Second sample document. -/
def docB : Doc := sampleDoc "b" 2 ["B", "C"]

/-- Third sample document. -/
def docC : Doc := sampleDoc "c" 1 ["A"]

/-- Two documents sharing publish time 5. -/
def docT1 : Doc := sampleDoc "t1" 5 ["x"]

/-- Equal-time companion of `docT1`. -/
def docT2 : Doc := sampleDoc "t2" 5 ["y"]

/-- The corpus over `docA`, `docB`, `docC` (already in descending order). -/
def sampleCorpus : List Entry := [(0, docA), (1, docB), (2, docC)]

/-- A five-document corpus for the home-view witnesses. -/
def docsFive : List Entry :=
  [(0, docA), (1, docB), (2, docC), (3, docT1), (4, docT2)]

/-- A configuration with a negative `FeedArticles`. -/
def cfgNeg : Config :=
  { contentPath := "content"
    templatePath := "template"
    baseURL := "http://example.org"
    basePath := ""
    hostname := "example.org"
    homeArticles := 2
    feedArticles := -1
    feedTitle := "feed" }

/-- A load environment whose walk hits one failing article file while every
other step succeeds. -/
def envBadFile : LoadEnv :=
  { homeTmpl := Except.ok ()
    indexTmpl := Except.ok ()
    articleTmpl := Except.ok ()
    pageTmpl := Except.ok ()
    docTmpl := Except.ok ()
    walk := Except.ok [Except.ok docA, Except.error "parse failure: bad.article"]
    atomMarshal := Except.ok "<feed/>"
    jsonMarshal := Except.ok "null" }

lemma authorsAux_cons (last i : Nat) (a : String) (rest : List String) :
    authorsAux last i (a :: rest) =
      (if 0 < i then (if i = last then " and " else ", ") else "") ++
        (a ++ authorsAux last (i + 1) rest) := rfl

lemma authorsAux_eq_tail :
    ∀ (l : List String) (i : Nat), 0 < i → l ≠ [] →
      authorsAux (i + l.length - 1) i l = authorsTail l := by
  intro l
  induction l with
  | nil => intro i _ h; exact absurd rfl h
  | cons a rest ih =>
      intro i hi _
      cases rest with
      | nil =>
          rw [authorsAux_cons]
          have hc : i + [a].length - 1 = i := by simp
          simp only [hc, authorsAux, authorsTail]
          simp [hi]
      | cons b rest' =>
          have hkey := ih (i + 1) (by omega) (by simp)
          have h1 : i + 1 + (b :: rest').length - 1 = i + (a :: b :: rest').length - 1 := by
            simp only [List.length_cons]; omega
          rw [h1] at hkey
          rw [authorsAux_cons, hkey]
          have hne : ¬ i = i + (a :: b :: rest').length - 1 := by
            simp only [List.length_cons]; omega
          simp only [hi, if_true, if_neg hne]
          rfl

lemma authorsSpecJoin_eq_head_tail :
    ∀ (rest : List String) (a : String), rest ≠ [] →
      authorsSpecJoin (a :: rest) = a ++ authorsTail rest := by
  intro rest
  induction rest with
  | nil => intro a h; exact absurd rfl h
  | cons b rest' ih =>
      intro a _
      cases rest' with
      | nil => simp [authorsSpecJoin, authorsTail, String.append_assoc]
      | cons c rest'' =>
          have hb := ih b (by simp)
          show a ++ ", " ++ authorsSpecJoin (b :: c :: rest'') = _
          rw [hb]
          show a ++ ", " ++ (b ++ authorsTail (c :: rest'')) =
            a ++ (", " ++ (b ++ authorsTail (c :: rest'')))
          rw [String.append_assoc]

lemma authors_eq_specJoin (names : List String) :
    authors names = authorsSpecJoin names := by
  cases names with
  | nil => rfl
  | cons a rest =>
      cases rest with
      | nil => simp [authors, authorsAux, authorsSpecJoin]
      | cons b rest' =>
          have hkey := authorsAux_eq_tail (b :: rest') 1 (by omega) (by simp)
          have h2 : 1 + (b :: rest').length - 1 = (a :: b :: rest').length - 1 := by
            simp only [List.length_cons]; omega
          rw [h2] at hkey
          rw [authorsSpecJoin_eq_head_tail (b :: rest') a (by simp)]
          unfold authors
          rw [authorsAux_cons, hkey]
          simp

/-! ### Shared helper lemmas -/

lemma goSortedBy_time_pairwise :
    ∀ l : List Entry, goSortedBy entryLess l = true →
      l.Pairwise (fun a b => b.2.time ≤ a.2.time) := by
  intro l
  induction l with
  | nil => intro _; exact List.Pairwise.nil
  | cons a rest ih =>
      intro h
      cases rest with
      | nil => simp
      | cons b rest' =>
          simp only [goSortedBy, Bool.and_eq_true] at h
          have hba : b.2.time ≤ a.2.time := by
            have hb : entryLess b a = false := by simpa using h.1
            unfold entryLess docsByTimeLess at hb
            rw [decide_eq_false_iff_not] at hb
            exact not_lt.mp hb
          have htail := ih h.2
          rw [List.pairwise_cons]
          refine ⟨?_, htail⟩
          intro x hx
          rcases List.mem_cons.mp hx with hxb | hx'
          · exact hxb ▸ hba
          · have hxle : x.2.time ≤ b.2.time :=
              (List.pairwise_cons.mp htail).1 x hx'
            exact le_trans hxle hba

lemma corpus_ids_nodup {docs0 : List Doc} {corpus : List Entry}
    (h : goSortSpec entryLess (discovery docs0) corpus) :
    (corpus.map Prod.fst).Nodup := by
  have hperm : ((discovery docs0).map Prod.fst).Perm (corpus.map Prod.fst) :=
    h.1.map Prod.fst
  have henum : (discovery docs0).map Prod.fst = List.range docs0.length :=
    List.enum_map_fst docs0
  exact hperm.nodup (henum ▸ List.nodup_range docs0.length)

lemma mem_docTags {corpus : List Entry} {t : String} {e : Entry} :
    e ∈ docTags corpus t ↔ e ∈ corpus ∧ t ∈ e.2.tags := by
  unfold docTags
  rw [List.mem_flatMap]
  constructor
  · rintro ⟨a, ha, hmem⟩
    rcases List.mem_map.mp hmem with ⟨u, hu, hae⟩
    subst hae
    have hf := List.mem_filter.mp hu
    have hut : u = t := by simpa using hf.2
    exact ⟨ha, hut ▸ hf.1⟩
  · rintro ⟨he, ht⟩
    refine ⟨e, he, List.mem_map.mpr ⟨t, ?_, rfl⟩⟩
    exact List.mem_filter.mpr ⟨ht, by simp⟩

lemma findPosAux_eq (doc : Entry) :
    ∀ (l : List Entry) (i start : Nat), (l.map Prod.fst).Nodup →
      l[i]? = some doc → findPosAux doc l start = some (start + i) := by
  intro l
  induction l with
  | nil => intro i start _ h; simp at h
  | cons e rest ih =>
      intro i start hnd hget
      rw [List.map_cons, List.nodup_cons] at hnd
      by_cases hid : e.1 = doc.1
      · have hi0 : i = 0 := by
          by_contra h0
          cases i with
          | zero => exact h0 rfl
          | succ j =>
              rw [List.getElem?_cons_succ] at hget
              have hmem : doc ∈ rest := List.getElem?_mem hget
              have hfst : doc.1 ∈ rest.map Prod.fst :=
                List.mem_map_of_mem Prod.fst hmem
              exact hnd.1 (by rw [hid]; exact hfst)
        subst hi0
        simp [findPosAux, hid]
      · cases i with
        | zero =>
            rw [List.getElem?_cons_zero] at hget
            injection hget with hEq
            exact absurd (by rw [hEq]) hid
        | succ j =>
            rw [List.getElem?_cons_succ] at hget
            have hres := ih j (start + 1) hnd.2 hget
            have hstep : findPosAux doc (e :: rest) start =
                findPosAux doc rest (start + 1) := by
              simp [findPosAux, hid]
            rw [hstep, hres]
            congr 1
            omega

lemma collectDocs_ok_all :
    ∀ (rs : List (Except String Doc)) (ds : List Doc),
      collectDocs rs = Except.ok ds → rs.all (fun r => stepOK r) = true := by
  intro rs
  induction rs with
  | nil => intro ds _; rfl
  | cons r rest ih =>
      intro ds h
      cases r with
      | error e =>
          exact absurd h (by simp [collectDocs, Bind.bind, Except.bind])
      | ok d =>
          cases hr : collectDocs rest with
          | error e =>
              have hcd : collectDocs (Except.ok d :: rest) = Except.error e := by
                simp [collectDocs, Bind.bind, Except.bind, hr]
              rw [hcd] at h
              exact Except.noConfusion h
          | ok ds' =>
              have hall := ih ds' hr
              rw [List.all_cons, Bool.and_eq_true]
              exact ⟨rfl, hall⟩

lemma newServer_ok_steps (env : LoadEnv) (s : ServerModel)
    (h : newServer env = Except.ok s) : allLoadStepsOK env = true := by
  rcases env with ⟨ht, it, art, pt, dt, wk, am, jm⟩
  unfold newServer loadDocsResult at h
  unfold allLoadStepsOK
  simp only [Bind.bind] at h
  cases ht with
  | error e => simp [Except.bind] at h
  | ok u1 =>
  cases it with
  | error e => simp [Except.bind] at h
  | ok u2 =>
  cases art with
  | error e => simp [Except.bind] at h
  | ok u3 =>
  cases pt with
  | error e => simp [Except.bind] at h
  | ok u4 =>
  cases dt with
  | error e => simp [Except.bind] at h
  | ok u5 =>
  cases wk with
  | error e => simp [Except.bind] at h
  | ok rs =>
  cases hcd : collectDocs rs with
  | error e => simp [Except.bind, hcd] at h
  | ok ds =>
  cases am with
  | error e => simp [Except.bind, hcd] at h
  | ok ab =>
  cases jm with
  | error e => simp [Except.bind, hcd] at h
  | ok jb =>
      have hall := collectDocs_ok_all rs ds hcd
      simp [stepOK, List.all_eq_true] at hall
      simp [stepOK, List.all_eq_true]
      exact hall

/-! ### Claim theorems -/

/-- C1, counterexample: with the equal-time discovery order `[docT1, docT2]`,
the output `[(1, docT2), (0, docT1)]` satisfies everything `sort.Sort`
guarantees for `docsByTime` — it is a sorted permutation of the input — yet
the equal-time pair has lost its discovery order, so the order produced by
`loadDocs` is not guaranteed to be stable. -/
theorem c1_stability_counterexample :
    goSortSpec entryLess (discovery [docT1, docT2]) [(1, docT2), (0, docT1)] ∧
      stableTiesB [(1, docT2), (0, docT1)] = false :=
  ⟨⟨by decide, by decide⟩, by decide⟩

/-- C1, amended: every order that `loadDocs`'s call to
`sort.Sort(docsByTime(s.docs))` can produce is (weakly) non-increasing in
publish time; the relative order of equal-time documents is unspecified,
because `sort.Sort` is not a stable sort. -/
theorem c1_order_nonincreasing (docs0 : List Doc) (out : List Entry)
    (h : goSortSpec entryLess (discovery docs0) out) :
    out.Pairwise (fun a b => b.2.time ≤ a.2.time) :=
  goSortedBy_time_pairwise out h.2

/-- Witness for C1 at a two-document corpus with distinct times. -/
theorem c1_order_nonincreasing_witness :
    List.Pairwise (fun a b : Entry => b.2.time ≤ a.2.time)
      [(1, docA), (0, docB)] :=
  c1_order_nonincreasing [docB, docA] [(1, docA), (0, docB)]
    ⟨by decide, by decide⟩

/-- C2: for any corpus produced by the builder and any document `doc`, the
`Related` list — an arbitrary map-iteration order `keys` of the `related`
key set, then sorted by `sort.Sort(docsByTime(...))` — never contains `doc`
itself, never contains duplicates, contains every other document sharing at
least one tag with `doc`, and is sorted by non-increasing publish time. -/
theorem c2_related_set (docs0 : List Doc) (corpus : List Entry) (doc : Entry)
    (keys rel : List Entry)
    (hcorp : goSortSpec entryLess (discovery docs0) corpus)
    (hkeys : keys.Perm (relatedKeyCandidates corpus doc))
    (hrel : goSortSpec entryLess keys rel) :
    (∀ e ∈ rel, e.1 ≠ doc.1) ∧
      (rel.map Prod.fst).Nodup ∧
      (∀ e ∈ corpus, e.1 ≠ doc.1 →
        (∃ t, t ∈ doc.2.tags ∧ t ∈ e.2.tags) → e ∈ rel) ∧
      rel.Pairwise (fun a b => b.2.time ≤ a.2.time) := by
  have hids := corpus_ids_nodup hcorp
  have hmem : ∀ e : Entry, e ∈ rel ↔ e ∈ relatedKeyCandidates corpus doc := by
    intro e
    rw [← hrel.1.mem_iff, hkeys.mem_iff]
  refine ⟨?_, ?_, ?_, goSortedBy_time_pairwise rel hrel.2⟩
  · intro e he
    have hc := (hmem e).mp he
    unfold relatedKeyCandidates at hc
    have hpred := (List.mem_filter.mp hc).2
    rw [Bool.and_eq_true] at hpred
    simpa using hpred.1
  · have hcand : ((relatedKeyCandidates corpus doc).map Prod.fst).Nodup := by
      unfold relatedKeyCandidates
      exact hids.sublist ((List.filter_sublist corpus).map Prod.fst)
    have hkperm := hkeys.map Prod.fst
    have hrperm := hrel.1.map Prod.fst
    exact hrperm.nodup (hkperm.symm.nodup hcand)
  · rintro e he hne ⟨t, ht1, ht2⟩
    apply (hmem e).mpr
    unfold relatedKeyCandidates
    apply List.mem_filter.mpr
    refine ⟨he, ?_⟩
    rw [Bool.and_eq_true]
    constructor
    · simpa using hne
    · apply List.any_eq_true.mpr
      refine ⟨t, ht1, ?_⟩
      apply List.any_eq_true.mpr
      exact ⟨e, mem_docTags.mpr ⟨he, ht2⟩, by simp⟩

/-- Witness for C2 on the three-document sample corpus, with the map keys
iterated in the order `[docC, docB]`. -/
theorem c2_related_set_witness :
    (∀ e ∈ ([(1, docB), (2, docC)] : List Entry), e.1 ≠ ((0, docA) : Entry).1) ∧
      (([(1, docB), (2, docC)] : List Entry).map Prod.fst).Nodup ∧
      (∀ e ∈ sampleCorpus, e.1 ≠ ((0, docA) : Entry).1 →
        (∃ t, t ∈ ((0, docA) : Entry).2.tags ∧ t ∈ e.2.tags) →
          e ∈ ([(1, docB), (2, docC)] : List Entry)) ∧
      List.Pairwise (fun a b : Entry => b.2.time ≤ a.2.time)
        [(1, docB), (2, docC)] :=
  c2_related_set [docA, docB, docC] sampleCorpus (0, docA)
    [(2, docC), (1, docB)] [(1, docB), (2, docC)]
    ⟨by decide, by decide⟩ (by decide) ⟨by decide, by decide⟩

/-- C3: for a document at position `i` of the corpus, `Newer` is exactly the
entry at `i-1` (absent iff `i = 0`) and `Older` is exactly the entry at
`i+1` (absent iff `i` is the last position). -/
theorem c3_neighbors (docs0 : List Doc) (corpus : List Entry)
    (hcorp : goSortSpec entryLess (discovery docs0) corpus)
    (i : Nat) (doc : Entry) (hget : corpus[i]? = some doc) :
    (newerOlder corpus doc).1 = (if i = 0 then none else corpus[i - 1]?) ∧
      (newerOlder corpus doc).2 = corpus[i + 1]? ∧
      ((newerOlder corpus doc).1 = none ↔ i = 0) ∧
      ((newerOlder corpus doc).2 = none ↔ i + 1 = corpus.length) := by
  have hids := corpus_ids_nodup hcorp
  have hpos : findPosAux doc corpus 0 = some i := by
    simpa using findPosAux_eq doc corpus i 0 hids hget
  have hlen : i < corpus.length := by
    by_contra hcon
    rw [List.getElem?_eq_none (Nat.le_of_not_lt hcon)] at hget
    exact Option.noConfusion hget
  have hno : newerOlder corpus doc =
      (if 0 < i then corpus[i - 1]? else none,
       if i + 1 < corpus.length then corpus[i + 1]? else none) := by
    unfold newerOlder
    rw [hpos]
  rw [hno]
  refine ⟨?_, ?_, ?_, ?_⟩
  · rcases Nat.eq_zero_or_pos i with h0 | hp
    · simp [h0]
    · simp [hp, Nat.pos_iff_ne_zero.mp hp]
  · by_cases hc : i + 1 < corpus.length
    · simp [hc]
    · simp only [if_neg hc]
      rw [List.getElem?_eq_none (Nat.le_of_not_lt hc)]
  · rcases Nat.eq_zero_or_pos i with h0 | hp
    · simp [h0]
    · have hprev : i - 1 < corpus.length := by omega
      simp [hp, List.getElem?_eq_getElem hprev, Nat.pos_iff_ne_zero.mp hp]
  · by_cases hc : i + 1 < corpus.length
    · have : corpus[i + 1]? = some corpus[i + 1] := List.getElem?_eq_getElem hc
      simp [hc, this]
      omega
    · have hii : i + 1 = corpus.length := by omega
      simp [hc, hii]

/-- Witness for C3 at the middle entry of the sample corpus. -/
theorem c3_neighbors_witness :
    (newerOlder sampleCorpus (1, docB)).1 =
        (if 1 = 0 then none else sampleCorpus[1 - 1]?) ∧
      (newerOlder sampleCorpus (1, docB)).2 = sampleCorpus[1 + 1]? ∧
      ((newerOlder sampleCorpus (1, docB)).1 = none ↔ 1 = 0) ∧
      ((newerOlder sampleCorpus (1, docB)).2 = none ↔
        1 + 1 = sampleCorpus.length) :=
  c3_neighbors [docA, docB, docC] sampleCorpus ⟨by decide, by decide⟩
    1 (1, docB) (by decide)

/-- C4, counterexample: with `FeedArticles = -1` and a one-document corpus,
both feeds contain 0 items, but `min(FeedArticles, len(docs)) = -1`: the
claimed count formula fails for negative configured values. -/
theorem c4_negative_cap_counterexample :
    (((renderAtomFeedModel cfgNeg id [(0, docA)]).entries.length : Int) ≠
        min cfgNeg.feedArticles (([(0, docA)] : List Entry).length : Int)) ∧
      (((jsonItems id [(0, docA)] cfgNeg.feedArticles).length : Int) ≠
        min cfgNeg.feedArticles (([(0, docA)] : List Entry).length : Int)) :=
  ⟨by decide, by decide⟩

/-- C4, amended: both feeds contain exactly
`min(max(FeedArticles, 0), len(docs))` items — 0 when `FeedArticles ≤ 0` —
and the items are the projections of the first documents of the corpus in
corpus order. -/
theorem c4_feed_prefix_shape (cfg : Config) (style : String → String)
    (corpus : List Entry) (i : Nat) :
    (renderAtomFeedModel cfg style corpus).entries.length =
        min cfg.feedArticles.toNat corpus.length ∧
      (jsonItems style corpus cfg.feedArticles).length =
        min cfg.feedArticles.toNat corpus.length ∧
      (renderAtomFeedModel cfg style corpus).entries[i]? =
        (if i < cfg.feedArticles.toNat
         then corpus[i]?.map (atomEntryOf cfg style) else none) ∧
      (jsonItems style corpus cfg.feedArticles)[i]? =
        (if i < cfg.feedArticles.toNat
         then corpus[i]?.map (jsonItemOf style) else none) := by
  have hlen : ∀ {α : Type} (f : Entry → α),
      ((corpus.take cfg.feedArticles.toNat).map f).length =
        min cfg.feedArticles.toNat corpus.length := by
    intro α f
    simp [List.length_take]
  have hget : ∀ {α : Type} (f : Entry → α),
      ((corpus.take cfg.feedArticles.toNat).map f)[i]? =
        (if i < cfg.feedArticles.toNat then corpus[i]?.map f else none) := by
    intro α f
    by_cases hlt : i < cfg.feedArticles.toNat
    · rw [if_pos hlt, List.getElem?_map, List.getElem?_take_of_lt hlt]
    · rw [if_neg hlt]
      have hout : ((corpus.take cfg.feedArticles.toNat).map f).length ≤ i := by
        rw [hlen f]
        omega
      exact List.getElem?_eq_none hout
  exact ⟨hlen _, hlen _, hget _, hget _⟩

/-- C5, counterexample: `".x"` is a valid identifier by the claim's own
syntax — letters and dots, not starting with a digit — yet `validJSONPFunc`
rejects it and the response falls back to plain JSON instead of the claimed
JSONP wrapping. -/
theorem c5_jsonp_dot_counterexample :
    claimValidIdent ".x" = true ∧
      serveJSONFeedRoute "[]" ".x" =
        { contentType := "application/json; charset=utf-8", body := "[]" } :=
  ⟨by decide, by decide⟩

/-- C5, amended: the JSONP wrapping applies iff the callback's first
character is a letter or underscore (up to RE2 case folding) and the rest
are letters, digits, underscores or dots; any other value — including the
empty string of an absent parameter — silently yields the plain cached JSON
bytes with a JSON content type, never an error. -/
theorem c5_jsonp_routing (feed p : String) :
    (serveJSONFeedRoute feed p).body =
        (if amendedValidIdent p then p ++ "(" ++ feed ++ ")" else feed) ∧
      (serveJSONFeedRoute feed p).contentType =
        (if amendedValidIdent p then "application/javascript; charset=utf-8"
         else "application/json; charset=utf-8") := by
  have hsame : amendedValidIdent p = validJSONPFunc p := rfl
  rw [hsame]
  unfold serveJSONFeedRoute
  by_cases hv : validJSONPFunc p
  · simp [hv]
  · simp [hv]

/-- C6, counterexample: for an empty corpus the loop appends nothing, the
`[]jsonItem` slice stays `nil`, and `json.Marshal` yields the JSON literal
`null` — not an array. -/
theorem c6_empty_feed_null_counterexample :
    renderJSONFeedValue id ([] : List Entry) 5 = JValue.null ∧
      isJsonArray (renderJSONFeedValue id ([] : List Entry) 5) = false :=
  ⟨rfl, rfl⟩

/-- C6, amended: whenever at least one item is emitted the JSON feed payload
is an array of objects whose keys are exactly
`Title, Link, Time, Summary, Content, Author` in that casing; when the
corpus or the cap yields zero items the payload is the JSON literal
`null`. -/
theorem c6_json_array_shape (style : String → String) (corpus : List Entry)
    (n : Int) :
    (jsonItems style corpus n = [] →
        renderJSONFeedValue style corpus n = JValue.null) ∧
      (jsonItems style corpus n ≠ [] →
        isJsonArray (renderJSONFeedValue style corpus n) = true ∧
          ∀ v ∈ jsonArrayElems (renderJSONFeedValue style corpus n),
            objKeys v =
              some ["Title", "Link", "Time", "Summary", "Content", "Author"]) := by
  constructor
  · intro h
    unfold renderJSONFeedValue
    rw [h]
  · intro h
    rcases hitems : jsonItems style corpus n with _ | ⟨it, rest⟩
    · exact absurd hitems h
    · unfold renderJSONFeedValue
      rw [hitems]
      refine ⟨rfl, ?_⟩
      intro v hv
      simp only [jsonArrayElems] at hv
      rcases List.mem_map.mp hv with ⟨x, _, hx⟩
      rw [← hx]
      rfl

/-- Witness for C6 on the sample corpus with cap 5. -/
theorem c6_json_array_shape_witness :
    isJsonArray (renderJSONFeedValue id sampleCorpus 5) = true ∧
      ∀ v ∈ jsonArrayElems (renderJSONFeedValue id sampleCorpus 5),
        objKeys v =
          some ["Title", "Link", "Time", "Summary", "Content", "Author"] :=
  (c6_json_array_shape id sampleCorpus 5).2 (by decide)

/-- C7: for a non-negative configured `HomeArticles`, the home view receives
exactly the first `min(HomeArticles, len(docs))` documents of the corpus in
corpus order (all of them when the corpus is not larger). -/
theorem c7_home_prefix (docs : List Entry) (homeArticles : Int)
    (h : 0 ≤ homeArticles) :
    homeDocsData docs homeArticles = some (docs.take homeArticles.toNat) ∧
      (docs.take homeArticles.toNat).length =
        min homeArticles.toNat docs.length := by
  constructor
  · unfold homeDocsData
    by_cases hc : (docs.length : Int) > homeArticles
    · simp [hc, h]
    · have hlen : docs.length ≤ homeArticles.toNat := by omega
      simp [hc, List.take_of_length_le hlen]
  · exact List.length_take _ _

/-- Witness for C7: `HomeArticles = 2` over a five-document corpus. -/
theorem c7_home_prefix_witness :
    homeDocsData docsFive 2 = some (docsFive.take (Int.toNat 2)) ∧
      (docsFive.take (Int.toNat 2)).length =
        min (Int.toNat 2) docsFive.length :=
  c7_home_prefix docsFive 2 (by decide)

/-- C8: `authors` joins the author display names with `", "` between all but
the last two and `" and "` before the last; `["Ann","Bo","Cy"]` yields
`"Ann, Bo and Cy"`, a single author yields just that name, and the empty
list yields the empty string. -/
theorem c8_authors_join :
    (∀ names : List String, authors names = authorsSpecJoin names) ∧
      authors ["Ann", "Bo", "Cy"] = "Ann, Bo and Cy" ∧
      authors ["Ann"] = "Ann" ∧ authors [] = "" :=
  ⟨authors_eq_specJoin, by decide, rfl, rfl⟩

/-- C9: if any load-phase step fails — template parsing, the file walk, any
individual file's open/parse/render, or feed serialization — `NewServer`
returns an error and no server value is produced. -/
theorem c9_load_failure_aborts (env : LoadEnv)
    (h : allLoadStepsOK env = false) :
    ∃ e, newServer env = Except.error e := by
  cases hns : newServer env with
  | error e => exact ⟨e, rfl⟩
  | ok s =>
      have hok := newServer_ok_steps env s hns
      rw [hok] at h
      exact Bool.noConfusion h

/-- Witness for C9: one failing article file aborts construction. -/
theorem c9_load_failure_aborts_witness :
    ∃ e, newServer envBadFile = Except.error e :=
  c9_load_failure_aborts envBadFile (by decide)

/-- C10: a negative configured `HomeArticles` with a non-empty corpus makes
the root-path truncation slice `s.docs[:HomeArticles]` out of range — a
panic, modelled as `none` — because the only guard is
`len(docs) > HomeArticles`, with no lower bound of zero. -/
theorem c10_negative_home_panics (docs : List Entry) (homeArticles : Int)
    (hneg : homeArticles < 0) (hne : docs ≠ []) :
    homeDocsData docs homeArticles = none := by
  have hlen : 0 < docs.length := List.length_pos.mpr hne
  have hgt : (docs.length : Int) > homeArticles := by omega
  have hnn : ¬ (0 : Int) ≤ homeArticles := by omega
  unfold homeDocsData
  simp [hgt, hnn]

/-- Witness for C10 at `HomeArticles = -1` over a one-document corpus. -/
theorem c10_negative_home_panics_witness :
    homeDocsData [(0, docA)] (-1) = none :=
  c10_negative_home_panics [(0, docA)] (-1) (by decide) (by decide)

end Blog
